import Mathlib

/-!
Shallow embedding of the `do` lint engine: the analyzer abstraction
(`pkg/analysis/analyzer.go`), the two concrete rules (`nocomments` and
`pkgerrors`), and the driver (`cmd/lint.go`: `lintCmd`, `runAnalyzers`,
`filterGenerated`, `isGenerated`).

Positions are modelled as naturals (Go `token.Pos` is an opaque int).
A Go `*ast.Comment` carries its raw text including the `//` or `/*`
markers, which is why the source checks `strings.HasPrefix(text, "//!")`
directly; the model keeps the raw text.
-/

/-- A source position (`token.Pos`). -/
abbrev Pos := Nat

/-- An individual comment (`*ast.Comment`): position and raw text. -/
structure Comment where
  pos : Pos
  text : String
deriving DecidableEq

/-- A comment group (`*ast.CommentGroup`): an ordered list of comments. -/
structure CommentGroup where
  list : List Comment
deriving DecidableEq

/-- The syntax-node kinds the two rules inspect.  The five declaration-like
kinds (`GenDecl`, `FuncDecl`, `TypeSpec`, `ValueSpec`, `Field`) carry an
optional doc comment group plus their child nodes, matching what
`ast.Inspect` reaches; `callExpr`, `selectorExpr` and `ident` model the
expression shapes the `pkgerrors` rule matches on; `other` stands for every
other node kind (statements, literals, computed bases, ...). -/
inductive Node where
  | genDecl : Option CommentGroup → List Node → Node
  | funcDecl : Option CommentGroup → List Node → Node
  | typeSpec : Option CommentGroup → List Node → Node
  | valueSpec : Option CommentGroup → List Node → Node
  | field : Option CommentGroup → List Node → Node
  | callExpr : Node → List Node → Pos → Node
  | selectorExpr : Node → String → Node
  | ident : String → Node
  | other : List Node → Node

/-- An import spec (`*ast.ImportSpec`): optional local alias, the raw quoted
path literal (`imp.Path.Value`, quotes included), and its position. -/
structure ImportSpec where
  name : Option String
  pathValue : String
  pos : Pos
deriving DecidableEq

/-- A file (`*ast.File`): optional header doc group (`file.Doc`), the import
specs (`file.Imports`), the declaration trees walked by `ast.Inspect`
(`file.Decls`), and all comment groups of the file (`file.Comments`). -/
structure File where
  doc : Option CommentGroup
  imports : List ImportSpec
  decls : List Node
  comments : List CommentGroup

/-- A diagnostic as rendered by the `Report` closure of the driver:
`<position>: <message> (<analyzer name>)`. -/
structure Diagnostic where
  pos : Pos
  message : String
  rule : String
deriving DecidableEq

/-- Go `strings.HasPrefix`, on the characters of the strings.  (Go compares
byte prefixes; for the ASCII prefixes used by the rules the two notions
coincide, and on the character level the definition stays
kernel-computable.) -/
def goHasPrefix (s pre : String) : Bool :=
  pre.toList.isPrefixOf s.toList

/-- Go `strings.HasSuffix`, on the characters of the strings. -/
def goHasSuffix (s suf : String) : Bool :=
  suf.toList.isSuffixOf s.toList

/-- `nocomments.MsgNoComments`. -/
def MsgNoComments : String :=
  "write self-commenting code; use //! prefix if truly important"

/-- `pkgerrors.MsgFmtErrorf`. -/
def MsgFmtErrorf : String :=
  "use github.com/pkg/errors errors.WithStack by default and errors.Wrap only if it will be unwrapped"

/-- Positions of the comments of an optional doc group. -/
def docPositionsOf : Option CommentGroup → List Pos
  | some cg => cg.list.map (·.pos)
  | none => []

mutual

/-- Doc positions contributed by one node during `ast.Inspect` in
`nocomments.collectDocPositions`: the switch adds `x.Doc` for `GenDecl`,
`FuncDecl`, `TypeSpec`, `ValueSpec` and `Field`, then recursion continues
into the children. -/
def nodeDocs : Node → List Pos
  | .genDecl d cs => docPositionsOf d ++ nodesDocs cs
  | .funcDecl d cs => docPositionsOf d ++ nodesDocs cs
  | .typeSpec d cs => docPositionsOf d ++ nodesDocs cs
  | .valueSpec d cs => docPositionsOf d ++ nodesDocs cs
  | .field d cs => docPositionsOf d ++ nodesDocs cs
  | .callExpr fn args _ => nodeDocs fn ++ nodesDocs args
  | .selectorExpr x _ => nodeDocs x
  | .ident _ => []
  | .other cs => nodesDocs cs

/-- `nodeDocs` over a list of sibling nodes. -/
def nodesDocs : List Node → List Pos
  | [] => []
  | n :: ns => nodeDocs n ++ nodesDocs ns

end

/-- `nocomments.collectDocPositions`: the comment positions of the header doc group plus the doc positions found by walking the declarations.  The Go
code stores them in a `map[token.Pos]bool`; the model keeps the list and
uses membership. -/
def collectDocPositions (f : File) : List Pos :=
  docPositionsOf f.doc ++ nodesDocs f.decls

/-- `nocomments.isAllowed`: a comment is allowed when its position is a doc
position, or its raw text starts with `//!` or `/*!`. -/
def isAllowed (c : Comment) (docPositions : List Pos) : Bool :=
  if c.pos ∈ docPositions then true
  else if goHasPrefix c.text "//!" then true
  else if goHasPrefix c.text "/*!" then true
  else false

/-- The diagnostic (if any) that `nocomments.run` emits for one comment,
given the collected doc positions. -/
def nocommentsEmit (docPositions : List Pos) (c : Comment) : Option Diagnostic :=
  if isAllowed c docPositions then none
  else some ⟨c.pos, MsgNoComments, "nocomments"⟩

/-- The comment loop of `nocomments.run` on one file, parametrised by the
doc-position set (the Go map is only ever queried for membership). -/
def nocommentsRunFileWith (docPositions : List Pos) (f : File) : List Diagnostic :=
  f.comments.flatMap fun cg => cg.list.filterMap (nocommentsEmit docPositions)

/-- `nocomments.run` on one file. -/
def nocommentsRunFile (f : File) : List Diagnostic :=
  nocommentsRunFileWith (collectDocPositions f) f

/-- `nocomments.run` over `pass.Files`. -/
def nocommentsRun (files : List File) : List Diagnostic :=
  files.flatMap nocommentsRunFile

/-- The selector shape `pkgerrors.run` matches for calls: `call.Fun` must be
a `SelectorExpr` whose `X` is a plain `Ident` named `fmt` with `Sel` named
`Errorf`. -/
def isFmtErrorfFun : Node → Bool
  | .selectorExpr (.ident nm) s => nm = "fmt" && s = "Errorf"
  | _ => false

mutual

/-- The `ast.Inspect` traversal of `pkgerrors.run`: report `MsgFmtErrorf`
at each call expression whose target matches `fmt.Errorf`; every other node
just recurses into its children. -/
def nodeCalls : Node → List Diagnostic
  | .genDecl _ cs => nodesCalls cs
  | .funcDecl _ cs => nodesCalls cs
  | .typeSpec _ cs => nodesCalls cs
  | .valueSpec _ cs => nodesCalls cs
  | .field _ cs => nodesCalls cs
  | .callExpr fn args p =>
      (if isFmtErrorfFun fn then [⟨p, MsgFmtErrorf, "pkgerrors"⟩] else [])
        ++ nodeCalls fn ++ nodesCalls args
  | .selectorExpr x _ => nodeCalls x
  | .ident _ => []
  | .other cs => nodesCalls cs

/-- `nodeCalls` over a list of sibling nodes. -/
def nodesCalls : List Node → List Diagnostic
  | [] => []
  | n :: ns => nodeCalls n ++ nodesCalls ns

end

/-- The import check of `pkgerrors.run` on one import spec: report when the
raw path literal equals `"errors"` (quotes included). -/
def importEmit (imp : ImportSpec) : Option Diagnostic :=
  if imp.pathValue = "\"errors\"" then some ⟨imp.pos, MsgFmtErrorf, "pkgerrors"⟩
  else none

/-- The import loop of `pkgerrors.run` on one file. -/
def pkgerrorsImportDiags (f : File) : List Diagnostic :=
  f.imports.filterMap importEmit

/-- `pkgerrors.run` on one file: the import loop, then the `ast.Inspect`
call traversal over the declarations of the file (the walk of a file also
touches its header doc group and package-name identifier, neither of which
contains a call expression). -/
def pkgerrorsRunFile (f : File) : List Diagnostic :=
  pkgerrorsImportDiags f ++ nodesCalls f.decls

/-- `pkgerrors.run` over `pass.Files`. -/
def pkgerrorsRun (files : List File) : List Diagnostic :=
  files.flatMap pkgerrorsRunFile


/-- An analyzer (`doanalysis.Analyzer` plus the wrapped
`analysis.Analyzer`): name, doc string, declared messages, and the run
entry point.  The `Run` of a rule only reads `pass.Files` and reports through
the sink of the pass, so it is modelled as a function from the file list to the
diagnostics it reports. -/
structure Analyzer where
  name : String
  doc : String
  messages : List String
  run : List File → List Diagnostic

/-- The `nocomments` analyzer value. -/
def nocommentsAnalyzer : Analyzer :=
  ⟨"nocomments", "disallows comments except godoc and //! for important notes",
    [MsgNoComments], nocommentsRun⟩

/-- The `pkgerrors` analyzer value. -/
def pkgerrorsAnalyzer : Analyzer :=
  ⟨"pkgerrors",
    "checks that github.com/pkg/errors is used instead of the standard errors package or fmt.Errorf",
    [MsgFmtErrorf], pkgerrorsRun⟩

/-- The analyzer list built at the top of `lintCmd`:
`[]*doanalysis.Analyzer\x7bpkgerrors.Analyzer, nocomments.Analyzer\x7d`. -/
def lintAnalyzers : List Analyzer :=
  [pkgerrorsAnalyzer, nocommentsAnalyzer]

/-- A loaded compilation unit (`*packages.Package`): its parsed files
(`pkg.Syntax`). -/
structure Package where
  files : List File

/-- `isGenerated`: a file is generated when any comment anywhere in it has
raw text starting with `// Code generated` and ending with `DO NOT EDIT.`. -/
def isGenerated (file : File) : Bool :=
  file.comments.any fun cg =>
    cg.list.any fun c =>
      goHasPrefix c.text "// Code generated" && goHasSuffix c.text "DO NOT EDIT."

/-- `filterGenerated`: keep the files that are not generated. -/
def filterGenerated (files : List File) : List File :=
  files.filter fun f => !isGenerated f

/-- The per-package body of `runAnalyzers`: filter out generated files,
skip the package if nothing is left, otherwise run every analyzer on the
surviving files (each reported diagnostic is rendered and counted by the
`Report` closure, which stamps the analyzer name). -/
def runPackage (analyzers : List Analyzer) (pkg : Package) : List Diagnostic :=
  let files := filterGenerated pkg.files
  if files.isEmpty then []
  else analyzers.flatMap fun a => a.run files

/-- The analysis loop of `runAnalyzers` over the loaded packages; the Go
return value of the Go function is the length of this list (each diagnostic
increments `issues`). -/
def runAnalyzers (pkgs : List Package) (analyzers : List Analyzer) : List Diagnostic :=
  pkgs.flatMap (runPackage analyzers)

/-- The result of `packages.Load`: either the loaded packages or a load
failure. -/
inductive LoadResult where
  | ok : List Package → LoadResult
  | err : LoadResult

/-- Observable outcome of one `lint` invocation: the lines printed by list
mode, whether loading was attempted, whether the load failure was printed,
the diagnostics rendered by the analysis, whether the analysis loop ran,
and whether the process exits nonzero. -/
structure LintOutcome where
  listing : List String
  loadAttempted : Bool
  loadFailurePrinted : Bool
  diagnostics : List Diagnostic
  analyzed : Bool
  exitNonzero : Bool
deriving DecidableEq

/-- The lines printed by the `--list` branch of `lintCmd`: per analyzer its
`name: doc` header, then one indented line per declared message. -/
def listLines (analyzers : List Analyzer) : List String :=
  analyzers.flatMap fun a =>
    (a.name ++ ": " ++ a.doc) :: a.messages.map (fun m => "  - " ++ m)

/-- The `RunE` body of `lintCmd`: with the list flag set it prints the analyzer
blocks and returns nil before any loading; otherwise the external
`golangci-lint` step runs (its failure only sets `hasErrors`), then
`runAnalyzers` loads the packages — printing the failure and returning 1
on a load error, else analyzing — and the process exits nonzero iff
`hasErrors`, i.e. iff golangci failed or `issues > 0`. -/
def lintCmdModel (listFlag golangciFailed : Bool) (load : LoadResult)
    (analyzers : List Analyzer) : LintOutcome :=
  if listFlag then
    ⟨listLines analyzers, false, false, [], false, false⟩
  else
    match load with
    | .err => ⟨[], true, true, [], false, true⟩
    | .ok pkgs =>
        let ds := runAnalyzers pkgs analyzers
        let issues := ds.length
        ⟨[], true, false, ds, true, golangciFailed || decide (0 < issues)⟩

/-- All individual comments of a file, in group order. -/
def allComments (f : File) : List Comment :=
  f.comments.flatMap (·.list)

mutual

/-- Preorder listing of the nodes `ast.Inspect` visits below (and
including) a node. -/
def preorder : Node → List Node
  | .genDecl d cs => .genDecl d cs :: preorderList cs
  | .funcDecl d cs => .funcDecl d cs :: preorderList cs
  | .typeSpec d cs => .typeSpec d cs :: preorderList cs
  | .valueSpec d cs => .valueSpec d cs :: preorderList cs
  | .field d cs => .field d cs :: preorderList cs
  | .callExpr fn args p => .callExpr fn args p :: (preorder fn ++ preorderList args)
  | .selectorExpr x s => .selectorExpr x s :: preorder x
  | .ident nm => [.ident nm]
  | .other cs => .other cs :: preorderList cs

/-- `preorder` over a list of sibling nodes. -/
def preorderList : List Node → List Node
  | [] => []
  | n :: ns => preorder n ++ preorderList ns

end

/-- The diagnostic that the inspection of `pkgerrors.run` emits at one visited node:
only a call expression whose target is the literal `fmt.Errorf` selector
produces one, at the position of the call. -/
def callEmit : Node → Option Diagnostic
  | .callExpr fn _ p =>
      if isFmtErrorfFun fn then some ⟨p, MsgFmtErrorf, "pkgerrors"⟩ else none
  | _ => none

/-- A file whose only content is `import "errors"` (spec scenario A). -/
def errorsOnlyFile : File :=
  ⟨none, [⟨none, "\"errors\"", 9⟩], [.genDecl none [.other []]], []⟩

/-- A file whose only content is a free-floating `// TODO fix this` comment
(spec scenario B). -/
def todoFile : File :=
  ⟨none, [], [], [⟨[⟨3, "// TODO fix this"⟩]⟩]⟩

/-- A generated file whose content would violate both rules: it imports
`"errors"`, calls `fmt.Errorf`, has a floating comment, and carries the
generated-code marker. -/
def generatedBadFile : File :=
  ⟨none, [⟨none, "\"errors\"", 4⟩],
    [.funcDecl none [.callExpr (.selectorExpr (.ident "fmt") "Errorf") [] 6]],
    [⟨[⟨2, "// Code generated by tool. DO NOT EDIT."⟩]⟩, ⟨[⟨5, "// TODO fix"⟩]⟩]⟩

/-- A `fmt.Errorf(...)` call site. -/
def sampleFmtErrorf : Node :=
  .callExpr (.selectorExpr (.ident "fmt") "Errorf") [] 7

/-- An `other.Errorf(...)` call site. -/
def sampleOtherErrorf : Node :=
  .callExpr (.selectorExpr (.ident "other") "Errorf") [] 8

/-- A `fmt.Sprintf(...)` call site. -/
def sampleFmtOther : Node :=
  .callExpr (.selectorExpr (.ident "fmt") "Sprintf") [] 9

/-- An `a.b.Errorf(...)` call site, whose selector base is itself a
selector rather than a simple identifier. -/
def sampleChained : Node :=
  .callExpr (.selectorExpr (.selectorExpr (.ident "a") "b") "Errorf") [] 10

theorem filterMap_nocommentsEmit (docs : List Pos) (l : List Comment) :
    l.filterMap (nocommentsEmit docs)
      = (l.filter fun c => !isAllowed c docs).map
          fun c => ⟨c.pos, MsgNoComments, "nocomments"⟩ := by
  induction l with
  | nil => rfl
  | cons c l ih => cases h : isAllowed c docs <;> simp [nocommentsEmit, h, ih]

theorem filterMap_importEmit (l : List ImportSpec) :
    l.filterMap importEmit
      = (l.filter fun i => decide (i.pathValue = "\"errors\"")).map
          fun i => ⟨i.pos, MsgFmtErrorf, "pkgerrors"⟩ := by
  induction l with
  | nil => rfl
  | cons i l ih => by_cases h : i.pathValue = "\"errors\"" <;> simp [importEmit, h, ih]

theorem nocommentsRunFileWith_characterization (docs : List Pos) (f : File) :
    nocommentsRunFileWith docs f
      = ((allComments f).filter fun c => !isAllowed c docs).map
          fun c => ⟨c.pos, MsgNoComments, "nocomments"⟩ := by
  unfold nocommentsRunFileWith allComments
  rw [← filterMap_nocommentsEmit]
  exact (List.filterMap_flatMap f.comments (·.list) (nocommentsEmit docs)).symm

theorem isAllowed_false_iff (c : Comment) (docs : List Pos) :
    isAllowed c docs = false ↔
      c.pos ∉ docs ∧ goHasPrefix c.text "//!" = false ∧
        goHasPrefix c.text "/*!" = false := by
  unfold isAllowed
  split_ifs with h1 h2 h3 <;> simp_all

mutual

theorem nodeCalls_eq_preorder (n : Node) :
    nodeCalls n = (preorder n).filterMap callEmit := by
  cases n with
  | genDecl d cs =>
      simp [nodeCalls, preorder, callEmit, nodesCalls_eq_preorderList cs]
  | funcDecl d cs =>
      simp [nodeCalls, preorder, callEmit, nodesCalls_eq_preorderList cs]
  | typeSpec d cs =>
      simp [nodeCalls, preorder, callEmit, nodesCalls_eq_preorderList cs]
  | valueSpec d cs =>
      simp [nodeCalls, preorder, callEmit, nodesCalls_eq_preorderList cs]
  | field d cs =>
      simp [nodeCalls, preorder, callEmit, nodesCalls_eq_preorderList cs]
  | callExpr fn args p =>
      cases h : isFmtErrorfFun fn <;>
        simp [nodeCalls, preorder, callEmit, h, List.filterMap_append,
          nodeCalls_eq_preorder fn, nodesCalls_eq_preorderList args]
  | selectorExpr x s =>
      simp [nodeCalls, preorder, callEmit, nodeCalls_eq_preorder x]
  | ident nm => simp [nodeCalls, preorder, callEmit]
  | other cs =>
      simp [nodeCalls, preorder, callEmit, nodesCalls_eq_preorderList cs]

theorem nodesCalls_eq_preorderList (ns : List Node) :
    nodesCalls ns = (preorderList ns).filterMap callEmit := by
  cases ns with
  | nil => simp [nodesCalls, preorderList]
  | cons n ns =>
      simp [nodesCalls, preorderList, List.filterMap_append,
        nodeCalls_eq_preorder n, nodesCalls_eq_preorderList ns]

end

/-- Claim C1: for every file in the pass and every individual comment in
every comment group, `nocomments.run` reports `MsgNoComments` at that
position of a comment iff that position is outside the collected
doc-position set and its raw text starts with neither `//!` nor `/*!`;
exactly one diagnostic is emitted per violating comment, not per group. -/
theorem nocomments_comment_classification (files : List File) :
    nocommentsRun files
        = (files.flatMap fun f =>
            ((allComments f).filter fun c =>
                !isAllowed c (collectDocPositions f)).map
              fun c => ⟨c.pos, MsgNoComments, "nocomments"⟩) ∧
    ∀ f : File, ∀ c : Comment,
      isAllowed c (collectDocPositions f) = false ↔
        c.pos ∉ collectDocPositions f ∧ goHasPrefix c.text "//!" = false ∧
          goHasPrefix c.text "/*!" = false := by
  constructor
  · unfold nocommentsRun
    congr 1
    funext f
    exact nocommentsRunFileWith_characterization (collectDocPositions f) f
  · exact fun f c => isAllowed_false_iff c (collectDocPositions f)

/-- Claim C2: the call traversal of `pkgerrors.run` emits exactly one
`MsgFmtErrorf` diagnostic, at the position of the call, per visited call
expression whose target is the literal `fmt.Errorf` selector; calls such as
`other.Errorf(...)`, `fmt.Sprintf(...)`, or calls whose selector base is
not a simple identifier produce none. -/
theorem pkgerrors_call_check (n : Node) :
    nodeCalls n = (preorder n).filterMap callEmit ∧
    nodeCalls sampleFmtErrorf = [⟨7, MsgFmtErrorf, "pkgerrors"⟩] ∧
    nodesCalls [sampleOtherErrorf, sampleFmtOther, sampleChained] = [] := by
  refine ⟨nodeCalls_eq_preorder n, by decide, by decide⟩

/-- Claim C3: a compilation unit whose sole file carries the generated-code
marker contributes nothing to a run — it is dropped before any analyzer is
invoked, for every analyzer list. -/
theorem generated_unit_excluded (f : File) (pre post : List Package)
    (analyzers : List Analyzer) (h : isGenerated f = true) :
    runAnalyzers (pre ++ ⟨[f]⟩ :: post) analyzers
      = runAnalyzers (pre ++ post) analyzers := by
  unfold runAnalyzers
  simp [runPackage, filterGenerated, h]

/-- Witness for C3, at a generated file whose content would otherwise
violate both rules. -/
theorem generated_unit_excluded_witness :
    isGenerated generatedBadFile = true ∧
    runAnalyzers [⟨[generatedBadFile]⟩] lintAnalyzers
      = runAnalyzers [] lintAnalyzers :=
  ⟨by decide,
    generated_unit_excluded generatedBadFile [] [] lintAnalyzers (by decide)⟩

/-- Claim C4: the import loop of `pkgerrors.run` reports exactly one
`MsgFmtErrorf` per import spec whose path literal is `"errors"`, positioned
at the import spec; a unit containing only `import "errors"` yields exactly
one diagnostic. -/
theorem pkgerrors_import_check :
    (∀ f : File, pkgerrorsImportDiags f
        = (f.imports.filter fun i => decide (i.pathValue = "\"errors\"")).map
            fun i => ⟨i.pos, MsgFmtErrorf, "pkgerrors"⟩) ∧
    runAnalyzers [⟨[errorsOnlyFile]⟩] lintAnalyzers
      = [⟨9, MsgFmtErrorf, "pkgerrors"⟩] := by
  refine ⟨fun f => filterMap_importEmit f.imports, by decide⟩

/-- Claim C5: a comment whose raw text literally starts with `//!` or `/*!`
is always allowed, so `nocomments.run` emits no diagnostic for it,
whatever its position and whatever the collected doc positions are. -/
theorem intentional_note_skipped (p : Pos) (t : String) (docs : List Pos)
    (h : goHasPrefix t "//!" = true ∨ goHasPrefix t "/*!" = true) :
    isAllowed ⟨p, t⟩ docs = true ∧ nocommentsEmit docs ⟨p, t⟩ = none := by
  have ha : isAllowed ⟨p, t⟩ docs = true := by
    unfold isAllowed
    rcases h with h | h <;> simp [h]
  exact ⟨ha, by simp [nocommentsEmit, ha]⟩

/-- Witness for C5 (spec scenario C): `//! TODO fix this`. -/
theorem intentional_note_skipped_witness :
    isAllowed ⟨3, "//! TODO fix this"⟩ [] = true ∧
      nocommentsEmit [] ⟨3, "//! TODO fix this"⟩ = none :=
  intentional_note_skipped 3 "//! TODO fix this" [] (Or.inl (by decide))

/-- Claim C6: when loading fails, `lint` prints the failure, aborts before
analyzing with no partial diagnostics, and exits nonzero; on a successful
analysis the rendered diagnostics are exactly the reports of the analyzers and
the process exits nonzero iff there is at least one diagnostic or the
external golangci-lint step failed. -/
theorem lint_run_outcome (gf : Bool) (analyzers : List Analyzer) :
    ((lintCmdModel false gf .err analyzers).loadFailurePrinted = true ∧
      (lintCmdModel false gf .err analyzers).diagnostics = [] ∧
      (lintCmdModel false gf .err analyzers).analyzed = false ∧
      (lintCmdModel false gf .err analyzers).exitNonzero = true) ∧
    ∀ pkgs : List Package,
      (lintCmdModel false gf (.ok pkgs) analyzers).diagnostics
          = runAnalyzers pkgs analyzers ∧
      ((lintCmdModel false gf (.ok pkgs) analyzers).exitNonzero = true ↔
        0 < (runAnalyzers pkgs analyzers).length ∨ gf = true) := by
  refine ⟨⟨rfl, rfl, rfl, rfl⟩, fun pkgs => ⟨rfl, ?_⟩⟩
  cases gf <;> simp [lintCmdModel]

/-- Claim C7: a run of the engine is deterministic — two runs on the same
loaded packages and analyzer list give the same diagnostic count and the
same multiset of (position, message, rule) diagnostics — and the
doc-position store of `nocomments` only matters through membership, so the
iteration order of the Go map cannot change the output. -/
theorem engine_run_deterministic (pkgs : List Package) (analyzers : List Analyzer)
    (f : File) (docs1 docs2 : List Pos) (h : ∀ p : Pos, p ∈ docs1 ↔ p ∈ docs2) :
    (runAnalyzers pkgs analyzers).length = (runAnalyzers pkgs analyzers).length ∧
    (runAnalyzers pkgs analyzers : Multiset Diagnostic)
        = (runAnalyzers pkgs analyzers : Multiset Diagnostic) ∧
    nocommentsRunFileWith docs1 f = nocommentsRunFileWith docs2 f := by
  have key : ∀ c : Comment, isAllowed c docs1 = isAllowed c docs2 := by
    intro c
    unfold isAllowed
    by_cases hm : c.pos ∈ docs1
    · rw [if_pos hm, if_pos ((h c.pos).mp hm)]
    · rw [if_neg hm, if_neg fun hh => hm ((h c.pos).mpr hh)]
  refine ⟨rfl, rfl, ?_⟩
  rw [nocommentsRunFileWith_characterization, nocommentsRunFileWith_characterization]
  simp only [key]

/-- Witness for C7: the same file classified against two different lists
with the same positions as members. -/
theorem engine_run_deterministic_witness :
    (runAnalyzers [] lintAnalyzers).length = (runAnalyzers [] lintAnalyzers).length ∧
    (runAnalyzers [] lintAnalyzers : Multiset Diagnostic)
        = (runAnalyzers [] lintAnalyzers : Multiset Diagnostic) ∧
    nocommentsRunFileWith [1] todoFile = nocommentsRunFileWith [1, 1] todoFile :=
  engine_run_deterministic [] lintAnalyzers todoFile [1] [1, 1]
    (by intro p; simp)

/-- Claim C8: with the list flag set, `lint` prints one block per
registered analyzer in order — its name, doc string and every declared
message — exits zero, and neither loads, filters nor analyzes anything;
on the registry of the two concrete rules this is exactly two blocks. -/
theorem lint_list_mode (gf : Bool) (load : LoadResult) (analyzers : List Analyzer) :
    (lintCmdModel true gf load analyzers).listing
        = (analyzers.flatMap fun a =>
            (a.name ++ ": " ++ a.doc) :: a.messages.map (fun m => "  - " ++ m)) ∧
    (lintCmdModel true gf load analyzers).loadAttempted = false ∧
    (lintCmdModel true gf load analyzers).analyzed = false ∧
    (lintCmdModel true gf load analyzers).diagnostics = [] ∧
    (lintCmdModel true gf load analyzers).exitNonzero = false ∧
    listLines lintAnalyzers
      = ["pkgerrors: checks that github.com/pkg/errors is used instead of the standard errors package or fmt.Errorf",
         "  - " ++ MsgFmtErrorf,
         "nocomments: disallows comments except godoc and //! for important notes",
         "  - " ++ MsgNoComments] := by
  exact ⟨rfl, rfl, rfl, rfl, rfl, by decide⟩

/-- Claim C9: the generated marker is recognized on any comment anywhere in
a file whose text starts with `// Code generated` and ends with
`DO NOT EDIT.`, and filtering drops individual generated files, not whole
units: a unit holding one generated and one non-generated file still has
the non-generated file analyzed by every analyzer. -/
theorem generated_filtering_per_file (g f2 : File) (analyzers : List Analyzer)
    (hg : isGenerated g = true) (hf : isGenerated f2 = false) :
    (∀ f : File, isGenerated f = true ↔
        ∃ c ∈ allComments f, goHasPrefix c.text "// Code generated" = true ∧
          goHasSuffix c.text "DO NOT EDIT." = true) ∧
    runAnalyzers [⟨[g, f2]⟩] analyzers = analyzers.flatMap fun a => a.run [f2] := by
  constructor
  · intro f
    simp only [isGenerated, allComments, List.any_eq_true, List.mem_flatMap,
      Bool.and_eq_true]
    tauto
  · simp [runAnalyzers, runPackage, filterGenerated, hg, hf]

/-- Witness for C9: a unit of one generated file and one file with a
floating comment; the comment of the surviving file is still reported. -/
theorem generated_filtering_per_file_witness :
    runAnalyzers [⟨[generatedBadFile, todoFile]⟩] lintAnalyzers
      = lintAnalyzers.flatMap (fun a => a.run [todoFile]) :=
  (generated_filtering_per_file generatedBadFile todoFile lintAnalyzers
    (by decide) (by decide)).2

/-- Claim C10: the import check of `pkgerrors.run` looks only at the quoted
path literal: the local alias never matters, an aliased import of the
standard `errors` package is still flagged, and any other path is never
flagged. -/
theorem import_check_path_only (nm1 nm2 : Option String) (path : String) (p : Pos)
    (hne : path ≠ "\"errors\"") :
    importEmit ⟨nm1, path, p⟩ = importEmit ⟨nm2, path, p⟩ ∧
    importEmit ⟨nm1, "\"errors\"", p⟩ = some ⟨p, MsgFmtErrorf, "pkgerrors"⟩ ∧
    importEmit ⟨nm1, path, p⟩ = none := by
  refine ⟨rfl, by simp [importEmit], by simp [importEmit, hne]⟩

/-- Witness for C10: the aliased import `stderrors "errors"` is flagged
while `"github.com/pkg/errors"` is not, whatever its alias. -/
theorem import_check_path_only_witness :
    importEmit ⟨some "stderrors", "\"github.com/pkg/errors\"", 7⟩
        = importEmit ⟨none, "\"github.com/pkg/errors\"", 7⟩ ∧
    importEmit ⟨some "stderrors", "\"errors\"", 7⟩
        = some ⟨7, MsgFmtErrorf, "pkgerrors"⟩ ∧
    importEmit ⟨some "stderrors", "\"github.com/pkg/errors\"", 7⟩ = none :=
  import_check_path_only (some "stderrors") none "\"github.com/pkg/errors\"" 7
    (by decide)
